import Mathlib

/-
Verification development for the pydev-repl repository.

The embedding below translates the statement-level dependency analyzer
(src/pydev_repl/parse.py) and the context store (src/pydev_repl/context.py)
into Lean.  Pure functions of the source become Lean functions; the parts
of the host runtime that the source merely calls (the CPython parser, the
difflib line differ, the exec primitive, the dict heap) are modelled
explicitly, each with a doc comment stating exactly what is modelled.
-/

namespace PydevRepl

/-! ## String helpers (parse.py lines 18-24) -/

/-- Model of CPython `str.rstrip('\n')` followed by `+ '\n'`:
`_sanitise` in parse.py line 18-20 ensures exactly one trailing newline. -/
def sanitise (s : String) : String :=
  String.mk ((s.data.reverse.dropWhile (fun c => c = '\n')).reverse) ++ "\n"

/-- Model of CPython `str.splitlines(keepends=True)` for texts whose only
line terminator is `'\n'` (the only terminator `_sanitise` produces). -/
def splitKeepEnds (s : String) : List String :=
  go s.data []
where
  go : List Char → List Char → List String
    | [], acc => if acc.isEmpty then [] else [String.mk acc.reverse]
    | c :: rest, acc =>
      if c = '\n' then String.mk (acc.reverse ++ ['\n']) :: go rest []
      else go rest (c :: acc)

/-- `_is_comment_or_blank` (parse.py lines 22-24): the line is blank after
`lstrip`, or its first non-whitespace character is `'#'`. -/
def isCommentOrBlank (line : String) : Bool :=
  match line.data.dropWhile (fun c => c.isWhitespace) with
  | [] => true
  | c :: _ => c = '#'

/-- Model of CPython `str.strip()` (used by `_exec` in context.py line 73). -/
def pyStrip (s : String) : String :=
  String.mk
    (((s.data.dropWhile (fun c => c.isWhitespace)).reverse.dropWhile
        (fun c => c.isWhitespace)).reverse)

/-- Model of CPython `''.join(...)` over a list of strings. -/
def strJoin : List String → String
  | [] => ""
  | s :: rest => s ++ strJoin rest

/-! ## Mini Python AST for top-level statements

`ast.parse` itself is host-runtime code; the analyzer consumes the nodes of
`mod.body`.  We model exactly the node shapes `_scan` inspects: the node
kind, the assignment-target structure, and the Load-context names that
`_LoadNameFinder` collects.  A generic expression is a binary tree whose
leaves are Load-context names or load-free atoms (constants, Store-context
names, etc.); `_LoadNameFinder` only ever observes the multiset of
Load-context names, which this encoding preserves. -/

inductive Expr where
  | nameL (s : String)
  | atom
  | node (a b : Expr)
deriving DecidableEq

/-- Load-context names collected by `_LoadNameFinder.visit_Name`
(parse.py lines 51-53). -/
def loadsE : Expr → List String
  | .nameL s => [s]
  | .atom => []
  | .node a b => loadsE a ++ loadsE b

/-- Assignment-target shapes distinguished by `_collect_target_names`
(parse.py lines 56-64).  A `Tuple`/`List` target is represented as a
right-nested sequence (`seqCons`/`seqNil`); `_collect_target_names` treats
the two styles identically, so the style is not recorded.  `starred` is
`ast.Starred` (e.g. in `a, *b = ...`); `other` is any remaining target
form (attribute or subscript), carrying the Load-context names appearing
inside it (e.g. the `i` of `xs[i] = v`). -/
inductive Target where
  | name (s : String)
  | seqNil
  | seqCons (hd tl : Target)
  | starred (inner : Target)
  | other (loads : Expr)
deriving DecidableEq

/-- `_collect_target_names` (parse.py lines 56-64): a `Name` contributes its
identifier, `Tuple`/`List` recurse into their elements, every other node
(including `Starred`) contributes nothing. -/
def collectTargetNames : Target → List String
  | .name s => [s]
  | .seqNil => []
  | .seqCons hd tl => collectTargetNames hd ++ collectTargetNames tl
  | .starred _ => []
  | .other _ => []

/-- Load-context names inside a target subtree, as `_LoadNameFinder` sees
them when `visit` walks an assignment's target (a target `Name` has Store
context and contributes nothing). -/
def loadsT : Target → List String
  | .name _ => []
  | .seqNil => []
  | .seqCons hd tl => loadsT hd ++ loadsT tl
  | .starred inner => loadsT inner
  | .other loads => loadsE loads

/-- One `alias` of an `ast.Import`/`ast.ImportFrom` node: the dotted module
or symbol name plus the optional `as` binding. -/
structure ImportAlias where
  aname : String
  asname : Option String
deriving DecidableEq

/-- Top-level statement node kinds distinguished by `_scan`
(parse.py lines 71-96).  Definition nodes carry the sub-expressions the
real node owns (decorators, defaults, annotations, bases) to make explicit
that `_scan` never looks at them.  `simple` covers every remaining
statement form; its expression tree carries the Load-context names that
`_LoadNameFinder` would collect from it. -/
inductive Node where
  | functionDef (dname : String) (extras : List Expr)
  | asyncFunctionDef (dname : String) (extras : List Expr)
  | classDef (dname : String) (extras : List Expr)
  | assign (targets : List Target) (value : Expr)
  | augAssign (target : Target) (value : Expr)
  | importN (aliases : List ImportAlias)
  | importFromN (aliases : List ImportAlias)
  | simple (e : Expr)
deriving DecidableEq

/-- `isinstance(node, (ast.FunctionDef, ast.AsyncFunctionDef, ast.ClassDef))`
(parse.py line 73). -/
def isDefNode : Node → Bool
  | .functionDef .. => true
  | .asyncFunctionDef .. => true
  | .classDef .. => true
  | _ => false

/-- `isinstance(node, (ast.Import, ast.ImportFrom))` (parse.py lines 84, 90). -/
def isImportNode : Node → Bool
  | .importN _ => true
  | .importFromN _ => true
  | _ => false

/-- Leading component of a dotted name: `n.name.split('.')[0]`
(parse.py line 86). -/
def headName (s : String) : String :=
  String.mk (s.data.takeWhile (fun c => c ≠ '.'))

/-- The name an import alias binds: `n.asname or n.name.split('.')[0]`
(parse.py line 86). -/
def aliasBinding (a : ImportAlias) : String :=
  match a.asname with
  | some nm => nm
  | none => headName a.aname

def listConcatMap (f : α → List β) : List α → List β
  | [] => []
  | a :: l => f a ++ listConcatMap f l

/-- Symbols provided by a statement (parse.py lines 75-86): a definition
contributes its own name, `Assign`/`AugAssign` their collected target
names, imports each bound alias, everything else nothing. -/
def providesOf : Node → List String
  | .functionDef dname _ => [dname]
  | .asyncFunctionDef dname _ => [dname]
  | .classDef dname _ => [dname]
  | .assign targets _ => listConcatMap collectTargetNames targets
  | .augAssign target _ => collectTargetNames target
  | .importN aliases => aliases.map aliasBinding
  | .importFromN aliases => aliases.map aliasBinding
  | .simple _ => []

/-- Load-context names `_LoadNameFinder` collects from a whole statement
node (generic visit over all fields, targets included). -/
def nodeLoads : Node → List String
  | .functionDef .. => []
  | .asyncFunctionDef .. => []
  | .classDef .. => []
  | .assign targets value => listConcatMap loadsT targets ++ loadsE value
  | .augAssign target value => loadsT target ++ loadsE value
  | .importN _ => []
  | .importFromN _ => []
  | .simple e => loadsE e

/-- Symbols a statement depends on (parse.py lines 88-96): nothing for
definitions and imports; otherwise the Load-context names, plus, for
`AugAssign`, the collected target names (the target is read as well as
written). -/
def dependsOf (n : Node) : List String :=
  if isDefNode n || isImportNode n then []
  else
    nodeLoads n ++
      (match n with
        | .augAssign target _ => collectTargetNames target
        | _ => [])

/-- One node of `ast.parse(...).body` together with its (1-based) `lineno`
and `end_lineno`, i.e. the parser output `_scan` consumes. -/
structure RawStmt where
  lineno : Nat
  endLineno : Nat
  node : Node
deriving DecidableEq

/-- `_Stmt` (parse.py lines 29-37). -/
structure Stmt where
  idx : Nat
  start : Nat
  endL : Nat
  src : String
  provides : List String
  depends : List String
  is_def : Bool
deriving DecidableEq, Inhabited

/-- The `_Stmt` built for the `i`-th node of the module body
(parse.py lines 71-108): 0-based line span, verbatim source slice
`lines[s : e + 1]`, provides/depends/is_def as computed by `_scan`. -/
def mkStmt (lines : List String) (i : Nat) (r : RawStmt) : Stmt :=
  let s := r.lineno - 1
  let e := r.endLineno - 1
  { idx := i
    start := s
    endL := e
    src := strJoin ((lines.drop s).take (e - s + 1))
    provides := providesOf r.node
    depends := dependsOf r.node
    is_def := isDefNode r.node }

/-- `_scan` (parse.py lines 67-109), as a function of the parser output
`raw` (the `ast.parse` call itself is host-runtime code; a parse failure
raises before any of this runs). -/
def scan (lines : List String) (raw : List RawStmt) : List Stmt :=
  raw.enum.map (fun p => mkStmt lines p.1 p.2)

/-! ## Snapshot Differ

`affected_snippet` obtains its changed-line set from `difflib.ndiff`
(parse.py lines 127-141): a line of the new text lands in `changed_lines`
exactly when ndiff tags it `'+ '` and it is not comment/blank.  The lines
ndiff tags `'+ '` are precisely the new-text positions not covered by a
matching block of `difflib.SequenceMatcher`.  `difflib` is host-runtime
code, so it is modelled here.

Modelled from the spec (§4.2): the Snapshot Differ is "a classic
line-level sequence diff"; concretely we model `SequenceMatcher`'s
recursive longest-matching-block algorithm.  The junk heuristics are
omitted: `ndiff` passes `linejunk=None`, and the popularity heuristic only
activates on texts of at least 200 lines, far above every input considered
here; without junk the block-extension loops of `find_longest_match` are
no-ops and are omitted as well. -/

structure FlmBest where
  besti : Nat
  bestj : Nat
  bestsize : Nat
deriving DecidableEq

def alookupN (k : Nat) : List (Nat × Nat) → Option Nat
  | [] => none
  | (k2, v) :: rest => if k2 = k then some v else alookupN k rest

/-- One row (one value of `i`) of `find_longest_match`'s dynamic program:
`prev` is the `j2len` table of the previous row; the fold builds the new
row and updates the running best block.  `k = j2len.get(j-1, 0) + 1`
counts the diagonal run of equal lines ending at `(i, j)`. -/
def flmRow (blo bhi : Nat) (js : List Nat) (i : Nat)
    (prev : List (Nat × Nat)) (best : FlmBest) :
    List (Nat × Nat) × FlmBest :=
  js.foldl
    (fun (acc : List (Nat × Nat) × FlmBest) j =>
      if blo ≤ j ∧ j < bhi then
        let k := (if j = 0 then 0 else (alookupN (j - 1) prev).getD 0) + 1
        let best2 :=
          if k > acc.2.bestsize then FlmBest.mk (i + 1 - k) (j + 1 - k) k
          else acc.2
        ((j, k) :: acc.1, best2)
      else acc)
    ([], best)

/-- `SequenceMatcher.find_longest_match` over the region
`a[alo:ahi] × b[blo:bhi]`, without junk (see the section comment). -/
def findLongestMatch (a b : List String) (alo ahi blo bhi : Nat) : FlmBest :=
  ((List.range' alo (ahi - alo)).foldl
      (fun (st : List (Nat × Nat) × FlmBest) i =>
        let js :=
          (List.range b.length).filter (fun j => decide (b.getD j "" = a.getD i ""))
        flmRow blo bhi js i st.1 st.2)
      ([], FlmBest.mk alo blo 0)).2

/-- New-text positions covered by the matching blocks of
`SequenceMatcher.get_matching_blocks` (recursive region splitting around
each longest match).  The fuel argument only bounds the recursion depth;
each recursive call strictly shrinks the region, so
`a.length + b.length + 1` is always enough. -/
def matchedIdx (a b : List String) :
    Nat → Nat → Nat → Nat → Nat → List Nat
  | 0, _, _, _, _ => []
  | fuel + 1, alo, ahi, blo, bhi =>
    if alo < ahi ∧ blo < bhi then
      let m := findLongestMatch a b alo ahi blo bhi
      if m.bestsize = 0 then []
      else
        matchedIdx a b fuel alo m.besti blo m.bestj
          ++ (List.range m.bestsize).map (fun t => m.bestj + t)
          ++ matchedIdx a b fuel (m.besti + m.bestsize) ahi
              (m.bestj + m.bestsize) bhi
    else []

def matchedNew (a b : List String) : List Nat :=
  matchedIdx a b (a.length + b.length + 1) 0 a.length 0 b.length

/-- The `changed_lines` set of `affected_snippet` (parse.py lines 127-141):
positions of the new text that the diff marks inserted (`'+ '`), except
comment/blank lines. -/
def changedLines (a b : List String) : List Nat :=
  (List.range b.length).filter
    (fun j => !decide (j ∈ matchedNew a b) && !isCommentOrBlank (b.getD j ""))

/-! ## Dependency Propagator and contiguity sweep
(parse.py lines 145-173) -/

/-- Truthiness of `s.depends & dirty_syms` (nonempty set intersection). -/
def interHit (xs ys : List String) : Bool :=
  xs.any (fun x => decide (x ∈ ys))

/-- The loop state of step 3 of `affected_snippet`: `dirty_ids` and
`dirty_syms`.  Sets are represented as lists; only membership is ever
observed. -/
structure PState where
  ids : List Nat
  syms : List String
deriving DecidableEq

/-- Body of the inner `for` loop (parse.py lines 156-162): an undirtied
statement whose `depends` meets `dirty_syms` becomes dirty and publishes
its `provides`. -/
def pstep (st : PState) (s : Stmt) : PState :=
  if s.idx ∈ st.ids then st
  else if interHit s.depends st.syms then
    PState.mk (st.ids ++ [s.idx]) (st.syms ++ s.provides)
  else st

/-- One full pass of the fixed-point loop over all statements. -/
def ppass (stmts : List Stmt) (st : PState) : PState :=
  stmts.foldl pstep st

/-- The `while changed` loop (parse.py lines 153-162): repeat passes until
one adds nothing.  A pass changes the state exactly when it dirties a
statement, so the loop is modelled by iterating until a fixed point; the
fuel `stmts.length + 1` always suffices because each productive pass
dirties at least one more statement. -/
def ploop (stmts : List Stmt) : Nat → PState → PState
  | 0, st => st
  | fuel + 1, st =>
    let st2 := ppass stmts st
    if st2 = st then st else ploop stmts fuel st2

def propagate (stmts : List Stmt) (st : PState) : PState :=
  ploop stmts (stmts.length + 1) st

/-- The inner `while` of step 4 (parse.py lines 168-173): starting after a
direct-dirty non-definition statement, keep adding each immediately
line-adjacent statement (`stmts[j].start == stmts[j-1].end + 1`), stopping
at the first definition or at the first gap. -/
def walkAdj (prev : Stmt) : List Stmt → List Nat
  | [] => []
  | s :: rest =>
    if s.start = prev.endL + 1 then
      if s.is_def then [] else s.idx :: walkAdj s rest
    else []

/-- Step 4 of `affected_snippet` (parse.py lines 164-173): the indices the
contiguity sweep adds, collected over every position whose statement is
direct-dirty and not a definition. -/
def sweepAll (direct : List Nat) : List Stmt → List Nat
  | [] => []
  | s :: rest =>
    (if decide (s.idx ∈ direct) && !s.is_def then walkAdj s rest else [])
      ++ sweepAll direct rest

/-! ## The `affected_snippet` pipeline (parse.py lines 115-176)

The pipeline is split into named stages so the theorems below can speak
about the intermediate dirty sets; their composition is exactly the body
of `affected_snippet`.  The `raw` argument is the output of
`ast.parse` on the (sanitised) new text — the parsing oracle. -/

def newLinesOf (src : String) : List String :=
  splitKeepEnds (sanitise src)

def stmtsOf (new_src : String) (raw : List RawStmt) : List Stmt :=
  scan (newLinesOf new_src) raw

def changedOf (old_src new_src : String) : List Nat :=
  changedLines (newLinesOf old_src) (newLinesOf new_src)

/-- `any(s.start <= ln <= s.end for ln in changed_lines)`
(parse.py line 147). -/
def directHit (changed : List Nat) (s : Stmt) : Bool :=
  changed.any (fun ln => decide (s.start ≤ ln ∧ ln ≤ s.endL))

/-- `direct_dirty_ids` (parse.py lines 146-148). -/
def directOf (old_src new_src : String) (raw : List RawStmt) : List Nat :=
  ((stmtsOf new_src raw).filter (directHit (changedOf old_src new_src))).map
    (fun s => s.idx)

/-- The seed state of step 2 (parse.py lines 149-150): `dirty_ids` a copy
of the direct set, `dirty_syms` the provides of the statements whose index
is in it. -/
def initState (stmts : List Stmt) (direct : List Nat) : PState :=
  PState.mk direct
    (listConcatMap (fun s => s.provides)
      (stmts.filter (fun s => decide (s.idx ∈ direct))))

/-- Dirty state after dependency propagation, before the contiguity sweep. -/
def dirtyBefore (old_src new_src : String) (raw : List RawStmt) : PState :=
  propagate (stmtsOf new_src raw)
    (initState (stmtsOf new_src raw) (directOf old_src new_src raw))

/-- The final dirty index set of `affected_snippet` (after step 4). -/
def finalDirty (old_src new_src : String) (raw : List RawStmt) : List Nat :=
  (dirtyBefore old_src new_src raw).ids
    ++ sweepAll (directOf old_src new_src raw) (stmtsOf new_src raw)

/-- `affected_snippet` (parse.py lines 115-176): the sources of the dirty
statements, concatenated in original order (step 5). -/
def affected_snippet (old_src new_src : String) (raw : List RawStmt) : String :=
  strJoin
    (((stmtsOf new_src raw).filter
        (fun s => decide (s.idx ∈ finalDirty old_src new_src raw))).map
      (fun s => s.src))

/-! ## Context store (context.py)

The context store manipulates CPython dicts, which are mutable objects on
a heap; `globals_of` returns `.copy()` of the live dict.  To make the
aliasing content of the spec's accessor claim expressible, dicts live in
an explicit heap of identities: a context holds a dict identity `gid`,
and `dict.copy()` allocates a fresh identity with the same contents.
Values are opaque object references; only the module tag matters
(for the `reload_modules` path). -/

/-- Opaque runtime values.  `importlib.reload(mod)` re-executes the module
in place and returns the *same* module object, so at the level of the
globals mapping the rebinding `g[name] = importlib.reload(obj)`
(context.py line 85) leaves the binding unchanged; the reload's effect is
on module-internal state, which the mapping does not contain. -/
inductive Value where
  | intV (n : Int)
  | strV (s : String)
  | moduleV (mname : String)
  | funcV (fname : String)
  | classV (cname : String)
  | noneV
deriving DecidableEq

/-- A dict's contents: insertion-ordered key/value pairs. -/
abbrev Mapping := List (String × Value)

/-- Dict item assignment `g[k] = v`: update the existing key in place,
else append. -/
def setVar : Mapping → String → Value → Mapping
  | [], k, v => [(k, v)]
  | (k2, v2) :: rest, k, v =>
    if k2 = k then (k2, v) :: rest else (k2, v2) :: setVar rest k v

def lookupVar : Mapping → String → Option Value
  | [], _ => none
  | (k2, v2) :: rest, k => if k2 = k then some v2 else lookupVar rest k

/-- The reload loop body (context.py lines 83-85) on one binding: module
bindings are rebound to `importlib.reload(obj)`, which is the same module
object (see `Value`); other bindings are untouched. -/
def reloadBinding : String × Value → String × Value
  | (k, .moduleV m) => (k, .moduleV m)
  | p => p

/-- The heap of dict objects: identity-keyed contents plus an allocation
counter. -/
structure Heap where
  dicts : List (Nat × Mapping)
  next : Nat
deriving DecidableEq

def alookupD (i : Nat) : List (Nat × Mapping) → Option Mapping
  | [] => none
  | (k, m) :: rest => if k = i then some m else alookupD i rest

/-- Contents of the dict with identity `i`. -/
def heapDict (h : Heap) (i : Nat) : Mapping :=
  (alookupD i h.dicts).getD []

/-- Allocate a fresh dict with contents `m`; returns the new heap and the
new identity. -/
def heapAlloc (h : Heap) (m : Mapping) : Heap × Nat :=
  (Heap.mk ((h.next, m) :: h.dicts) (h.next + 1), h.next)

/-- In-place mutation of the dict with identity `i` (replace its contents
with `m`). -/
def heapSet (h : Heap) (i : Nat) (m : Mapping) : Heap :=
  Heap.mk (h.dicts.map (fun p => if p.1 = i then (i, m) else p)) h.next

/-- Heap well-formedness: every allocated identity is below the counter. -/
def HeapWF (h : Heap) : Prop :=
  ∀ p ∈ h.dicts, p.1 < h.next

/-- `Config` (context.py lines 30-41). -/
structure Config where
  execute_imports : Bool
  define_functions : Bool
  run_code : Bool
  reload_modules : Bool
deriving DecidableEq

/-- Context cache entry `_CTX[key]` (context.py line 184): dict identity of
`'globals'`, the `'src'` history, and the `'cfg'` captured at creation. -/
structure CtxData where
  gid : Nat
  srcH : String
  cfg : Config
deriving DecidableEq

/-- `_exec` (context.py lines 71-88) at the heap level.  The host
primitives `compile` and `exec` are parameters: `parseErr src` is the
parse outcome of `compile` (`some e` = the raised syntax error), and
`execSem src` is the effect of `exec(code, g, g)` on the globals mapping
for a successfully compiled `src`.  Order of operations follows the
source: the empty-after-strip early return, then the reload loop, then
`compile` (which raises before `exec` runs). -/
def execHeap (parseErr : String → Option String)
    (execSem : String → Mapping → Mapping)
    (h : Heap) (gid : Nat) (cfg : Config) (src : String) :
    Heap × Option String :=
  if pyStrip src = "" then (h, none)
  else
    let h1 :=
      if cfg.reload_modules then
        heapSet h gid ((heapDict h gid).map reloadBinding)
      else h
    match parseErr src with
    | some e => (h1, some e)
    | none => (heapSet h1 gid (execSem src (heapDict h1 gid)), none)

/-- The existing-context branch of `run` (context.py lines 159-165): the
key is found in `_CTX`, so `cfgArg` is never read; `if patch:` skips
`None` and the empty string; otherwise `_exec` runs and, if it returns,
`ctx['src'] += '\n' + patch`.  Result: final heap, final cache entry for
the key, the returned key, and the raised error if any (the cache entry
keeps its old `src` when `_exec` raises). -/
def runExisting (parseErr : String → Option String)
    (execSem : String → Mapping → Mapping)
    (h : Heap) (ctx : CtxData) (key : String)
    (patch : Option String) (_cfgArg : Option Config) :
    Heap × CtxData × String × Option String :=
  match patch with
  | none => (h, ctx, key, none)
  | some p =>
    if p = "" then (h, ctx, key, none)
    else
      let r := execHeap parseErr execSem h ctx.gid ctx.cfg p
      match r.2 with
      | some e => (r.1, ctx, key, some e)
      | none => (r.1, CtxData.mk ctx.gid (ctx.srcH ++ "\n" ++ p) ctx.cfg, key, none)

/-- `globals_of` (context.py lines 196-197): `_CTX[key]['globals'].copy()`
allocates a fresh dict with the same contents and hands it to the caller. -/
def globals_of (h : Heap) (ctx : CtxData) : Heap × Nat :=
  heapAlloc h (heapDict h ctx.gid)

/-! ## Fresh execution under a policy (context.py lines 114-146)

Modelled from the spec (§9, "Dynamic exec as the execution primitive"):
executing program text against a mutable binding environment.  Executing
the concatenated chunk as one compiled unit is modelled as executing its
top-level statements in order; an import binds its alias to a module
object, a definition binds its name, an assignment binds its targets. -/

def evalE (g : Mapping) : Expr → Value
  | .nameL s => (lookupVar g s).getD .noneV
  | .atom => .noneV
  | .node _ _ => .noneV

def bindTarget (g : Mapping) (t : Target) (v : Value) : Mapping :=
  match t with
  | .name s => setVar g s v
  | .seqNil => g
  | .seqCons hd tl => bindTarget (bindTarget g hd v) tl v
  | .starred inner => bindTarget g inner v
  | .other _ => g

def execNode (g : Mapping) : Node → Mapping
  | .functionDef dname _ => setVar g dname (.funcV dname)
  | .asyncFunctionDef dname _ => setVar g dname (.funcV dname)
  | .classDef dname _ => setVar g dname (.classV dname)
  | .assign targets value =>
    let v := evalE g value
    targets.foldl (fun g2 t => bindTarget g2 t v) g
  | .augAssign target value => bindTarget g target (evalE g value)
  | .importN aliases =>
    aliases.foldl (fun g2 a => setVar g2 (aliasBinding a) (.moduleV a.aname)) g
  | .importFromN aliases =>
    aliases.foldl (fun g2 a => setVar g2 (aliasBinding a) (.moduleV a.aname)) g
  | .simple _ => g

def execNodes (nodes : List Node) (g : Mapping) : Mapping :=
  nodes.foldl execNode g

/-- The statement-class switch of `_execute_fresh`'s selection loop
(context.py lines 131-138), in the source's branch order. -/
def enabledFor (cfg : Config) (n : Node) : Bool :=
  if isImportNode n then cfg.execute_imports
  else if isDefNode n then cfg.define_functions
  else cfg.run_code

/-- The statements `_execute_fresh` keeps, in original order
(context.py lines 131-140: one `keep` decision per node of `module.body`). -/
def keptStmts (raw : List RawStmt) (cfg : Config) : List RawStmt :=
  raw.filter (fun r => enabledFor cfg r.node)

/-- The chunk one kept node contributes: `''.join(lines[start : end + 1])`
(context.py lines 141-143) — the node's whole line slice, which can carry
the text of another statement sharing its first or last line. -/
def sliceOf (lines : List String) (r : RawStmt) : String :=
  let s := r.lineno - 1
  let e := r.endLineno - 1
  strJoin ((lines.drop s).take (e - s + 1))

/-- `''.join(selected_chunks)` (context.py line 145): the line slices of
the kept statements, concatenated in original order. -/
def selectedChunk (lines : List String) (raw : List RawStmt)
    (cfg : Config) : String :=
  strJoin ((keptStmts raw cfg).map (sliceOf lines))

/-- `g = {'__name__': '__main__'}` (context.py line 119). -/
def initialGlobals : Mapping := [("__name__", Value.strV "__main__")]

/-- `_execute_fresh` (context.py lines 114-146): a fresh globals dict;
fast path executes the whole source when every switch is on, otherwise the
concatenated chunk `selectedChunk lines raw cfg` is executed as one unit.
`lines` is `src.splitlines(keepends=True)`, `raw` the `ast.parse` of the
source, and `chunkRaw` the `ast.parse` of the selected chunk — parser
outputs are oracle inputs throughout this development.  Executing a
compiled text is modelled (from the spec's "dynamic exec" primitive, §9)
as executing its top-level statements in order, so the filtered path runs
`chunkRaw`'s nodes — which, when statements share a line, include
statements of disabled classes carried in by a slice. -/
def execute_fresh (lines : List String) (raw chunkRaw : List RawStmt)
    (cfg : Config) : Mapping :=
  if cfg.execute_imports && cfg.define_functions && cfg.run_code then
    execNodes (raw.map (fun r => r.node)) initialGlobals
  else
    execNodes (chunkRaw.map (fun r => r.node)) initialGlobals

/-! ## Spec-side definitions for refinement claims -/

/-- Modelled from the spec: "for every name bound by the assignment, that
name is in provides" (claim C7) — the set of every leaf target name,
recursing through *every* unpacking form, starred targets included. -/
def specBoundNames : Target → List String
  | .name s => [s]
  | .seqNil => []
  | .seqCons hd tl => specBoundNames hd ++ specBoundNames tl
  | .starred inner => specBoundNames inner
  | .other _ => []

/-- Targets built only from plain names and tuple/list nesting (no starred,
attribute or subscript leaves). -/
def plainUnpackOnly : Target → Bool
  | .name _ => true
  | .seqNil => true
  | .seqCons hd tl => plainUnpackOnly hd && plainUnpackOnly tl
  | .starred _ => false
  | .other _ => false

/-! ## Concrete programs used by the counterexamples and witnesses

Each `raw…` list is the `ast.parse(...).body` of the sanitised new text:
node kinds, 1-based line spans, targets and Load-context names transcribed
from the Python grammar. -/

/-- Spec §8 scenario 1: `x = 1; y = x + 1` edited to `x = 2; y = x + 1`. -/
def rawS1 : List RawStmt :=
  [RawStmt.mk 1 1 (.assign [.name "x"] .atom),
   RawStmt.mk 2 2 (.assign [.name "y"] (.node (.nameL "x") .atom))]

def oldS1 : String := "x = 1\ny = x + 1"

def newS1 : String := "x = 2\ny = x + 1"

/-- Spec §8 scenario 2 (claim C6): deletion of `b = 2` plus an edit of the
last statement. -/
def rawS2 : List RawStmt :=
  [RawStmt.mk 1 1 (.assign [.name "a"] .atom),
   RawStmt.mk 2 2 (.assign [.name "c"] (.node (.nameL "a") .atom))]

def oldS2 : String := "a = 1\nb = 2\nc = a + b"

def newS2 : String := "a = 1\nc = a + 1"

/-- Claim C1 counterexample program: `a = 0` edited to `a = 1`; `b = 2` is
line-adjacent below it; `c = b` sits after a blank line. -/
def rawK1 : List RawStmt :=
  [RawStmt.mk 1 1 (.assign [.name "a"] .atom),
   RawStmt.mk 2 2 (.assign [.name "b"] .atom),
   RawStmt.mk 4 4 (.assign [.name "c"] (.nameL "b"))]

def oldK1 : String := "a = 0\nb = 2\n\nc = b"

def newK1 : String := "a = 1\nb = 2\n\nc = b"

/-- Claim C3 counterexample program: a comment-only line swaps sides with
a code line; both texts have the same non-comment content. -/
def rawK3 : List RawStmt :=
  [RawStmt.mk 1 1 (.assign [.name "a"] .atom)]

def oldK3 : String := "#c\na = 1"

def newK3 : String := "a = 1\n#c"

/-- Claim C3 witness program: a pure comment-line insertion. -/
def rawW3 : List RawStmt :=
  [RawStmt.mk 2 2 (.assign [.name "x"] .atom)]

def oldW3 : String := "x = 1"

def newW3 : String := "# hi\nx = 1"

/-- Claim C2 witness program: an edited assignment directly above a
function definition. -/
def rawW2 : List RawStmt :=
  [RawStmt.mk 1 1 (.assign [.name "x"] .atom),
   RawStmt.mk 2 3 (.functionDef "f" [])]

def oldW2 : String := "x = 1\ndef f():\n  return 1"

def newW2 : String := "x = 2\ndef f():\n  return 1"

/-- Spec §8 scenario 3 (claim C5): the source `import m\ndef f(): pass\nz=1`
as `splitlines(keepends=True)` sees it (context.py line 127; no trailing
newline in the source, so the last line keeps none). -/
def linesS3 : List String := ["import m\n", "def f(): pass\n", "z=1"]

/-- `ast.parse` of the scenario 3 source: one statement per line. -/
def rawS3 : List RawStmt :=
  [RawStmt.mk 1 1 (.importN [ImportAlias.mk "m" none]),
   RawStmt.mk 2 2 (.functionDef "f" []),
   RawStmt.mk 3 3 (.assign [.name "z"] .atom)]

/-- The policy of scenario 3: imports off, definitions and plain code on. -/
def cfgS3 : Config := Config.mk false true true false

/-- `ast.parse` of scenario 3's selected chunk `def f(): pass\nz=1`. -/
def chunkRawS3 : List RawStmt :=
  [RawStmt.mk 1 1 (.functionDef "f" []),
   RawStmt.mk 2 2 (.assign [.name "z"] .atom)]

/-- Claim C5 counterexample source: `import m; z = 1` — two top-level
statements sharing one line, as `splitlines(keepends=True)` sees it. -/
def linesK5 : List String := ["import m; z = 1"]

/-- `ast.parse` of the counterexample source: both nodes span line 1. -/
def rawK5 : List RawStmt :=
  [RawStmt.mk 1 1 (.importN [ImportAlias.mk "m" none]),
   RawStmt.mk 1 1 (.assign [.name "z"] .atom)]

/-- `ast.parse` of the counterexample's selected chunk: the kept
assignment's line slice is the whole source line, so the chunk's parse
coincides with the source's parse — import included. -/
def chunkRawK5 : List RawStmt := rawK5

/-- Claim C7 counterexample target: the `a, *b` of `a, *b = ...`. -/
def starredPair : Target :=
  .seqCons (.name "a") (.seqCons (.starred (.name "b")) .seqNil)

/-! # Theorems

First some generic list lemmas, then the theory of the propagation loop,
then one theorem per claim (with witnesses and counterexamples). -/

theorem mem_listConcatMap {α β : Type} {f : α → List β} {x : β} {a : α} :
    ∀ {l : List α}, a ∈ l → x ∈ f a → x ∈ listConcatMap f l
  | b :: l, h, hx => by
    rcases List.mem_cons.mp h with h1 | h2
    · subst h1; exact List.mem_append_left _ hx
    · exact List.mem_append_right _ (mem_listConcatMap h2 hx)

theorem nodup_map_inj {α β : Type} {f : α → β} :
    ∀ {l : List α}, (l.map f).Nodup → ∀ a ∈ l, ∀ b ∈ l, f a = f b → a = b
  | [], _, a, ha, _, _, _ => absurd ha (List.not_mem_nil a)
  | c :: l, h, a, ha, b, hb, hfab => by
    rw [List.map_cons] at h
    have hnotin : f c ∉ l.map f := (List.nodup_cons.mp h).1
    have hnd : (l.map f).Nodup := (List.nodup_cons.mp h).2
    rcases List.mem_cons.mp ha with h1 | h1 <;> rcases List.mem_cons.mp hb with h2 | h2
    · rw [h1, h2]
    · exfalso
      apply hnotin
      rw [← h1, hfab]
      exact List.mem_map_of_mem f h2
    · exfalso
      apply hnotin
      rw [← h2, ← hfab]
      exact List.mem_map_of_mem f h1
    · exact nodup_map_inj hnd a h1 b h2 hfab

/-! ## Theory of the propagation loop (parse.py lines 152-162) -/

/-- `pstep` either leaves the state unchanged or dirties exactly the
statement it inspects. -/
theorem pstep_cases (st : PState) (s : Stmt) :
    pstep st s = st ∨
      (s.idx ∉ st.ids ∧ interHit s.depends st.syms = true ∧
        pstep st s = PState.mk (st.ids ++ [s.idx]) (st.syms ++ s.provides)) := by
  unfold pstep
  split
  · exact Or.inl rfl
  · split
    · exact Or.inr ⟨by assumption, by assumption, rfl⟩
    · exact Or.inl rfl

theorem pstep_len_le (st : PState) (s : Stmt) :
    st.ids.length ≤ (pstep st s).ids.length := by
  rcases pstep_cases st s with h | ⟨_, _, h⟩ <;> rw [h] <;> simp

theorem pstep_eq_of_len {st : PState} {s : Stmt}
    (h : (pstep st s).ids.length = st.ids.length) : pstep st s = st := by
  rcases pstep_cases st s with h1 | ⟨_, _, h1⟩
  · exact h1
  · rw [h1] at h; simp at h

theorem foldl_pstep_len_le :
    ∀ (l : List Stmt) (st : PState),
      st.ids.length ≤ (l.foldl pstep st).ids.length
  | [], _ => Nat.le_refl _
  | s :: l, st => by
    rw [List.foldl_cons]
    exact Nat.le_trans (pstep_len_le st s) (foldl_pstep_len_le l (pstep st s))

/-- A pass that ends where it started fixed every statement it visited. -/
theorem foldl_pstep_fix_elem :
    ∀ (l : List Stmt) (st : PState), l.foldl pstep st = st →
      ∀ s ∈ l, pstep st s = st
  | s :: l, st, h, t, ht => by
    rw [List.foldl_cons] at h
    have hle1 := pstep_len_le st s
    have hle2 := foldl_pstep_len_le l (pstep st s)
    have hlen : (pstep st s).ids.length = st.ids.length := by
      have : (l.foldl pstep (pstep st s)).ids.length = st.ids.length := by rw [h]
      omega
    have hps := pstep_eq_of_len hlen
    rw [hps] at h
    rcases List.mem_cons.mp ht with h1 | h1
    · rw [h1]; exact hps
    · exact foldl_pstep_fix_elem l st h t h1

theorem interHit_iff {xs ys : List String} :
    interHit xs ys = true ↔ ∃ x, x ∈ xs ∧ x ∈ ys := by
  simp [interHit, List.any_eq_true]

/-- A statement fixed by `pstep` while still undirtied has no dependency
on the dirty symbols. -/
theorem pstep_fix_not_hit {st : PState} {s : Stmt}
    (h : pstep st s = st) (hns : s.idx ∉ st.ids) :
    interHit s.depends st.syms = false := by
  rcases pstep_cases st s with h1 | ⟨h2, h3, h4⟩
  · by_contra hb
    have hhit : interHit s.depends st.syms = true :=
      eq_true_of_ne_false hb
    have : pstep st s = PState.mk (st.ids ++ [s.idx]) (st.syms ++ s.provides) := by
      unfold pstep
      rw [if_neg hns, if_pos hhit]
    rw [h] at this
    have := congrArg PState.ids this
    simp at this
  · rw [h4] at h
    have := congrArg PState.ids h
    simp at this

theorem foldl_pstep_pres {P : PState → Prop} (stmts : List Stmt)
    (hstep : ∀ st s, s ∈ stmts → P st → P (pstep st s)) :
    ∀ (l : List Stmt), (∀ s ∈ l, s ∈ stmts) → ∀ st, P st → P (l.foldl pstep st)
  | [], _, st, hP => by simpa using hP
  | s :: l, hsub, st, hP => by
    rw [List.foldl_cons]
    exact foldl_pstep_pres stmts hstep l
      (fun t ht => hsub t (List.mem_cons_of_mem s ht)) (pstep st s)
      (hstep st s (hsub s (List.mem_cons_self s l)) hP)

theorem ploop_pres {P : PState → Prop} (stmts : List Stmt)
    (hstep : ∀ st s, s ∈ stmts → P st → P (pstep st s)) :
    ∀ (fuel : Nat) (st : PState), P st → P (ploop stmts fuel st)
  | 0, _, hP => hP
  | fuel + 1, st, hP => by
    simp only [ploop]
    split
    · exact hP
    · exact ploop_pres stmts hstep fuel (ppass stmts st)
        (foldl_pstep_pres stmts hstep stmts (fun _ h => h) st hP)

theorem foldl_pstep_ids_subset :
    ∀ (l : List Stmt) (st : PState), st.ids ⊆ (l.foldl pstep st).ids
  | [], _ => fun _ h => h
  | s :: l, st => by
    rw [List.foldl_cons]
    intro x hx
    apply foldl_pstep_ids_subset l (pstep st s)
    rcases pstep_cases st s with h | ⟨_, _, h⟩ <;> rw [h]
    · exact hx
    · exact List.mem_append_left _ hx

theorem ploop_ids_subset (stmts : List Stmt) :
    ∀ (fuel : Nat) (st : PState), st.ids ⊆ (ploop stmts fuel st).ids
  | 0, _ => fun _ h => h
  | fuel + 1, st => by
    simp only [ploop]
    split
    · exact fun _ h => h
    · exact fun x hx =>
        ploop_ids_subset stmts fuel (ppass stmts st)
          (foldl_pstep_ids_subset stmts st hx)

theorem foldl_pstep_eq_of_len :
    ∀ (l : List Stmt) (st : PState),
      (l.foldl pstep st).ids.length = st.ids.length → l.foldl pstep st = st
  | [], _, _ => rfl
  | s :: l, st, h => by
    rw [List.foldl_cons] at h ⊢
    have hle1 := pstep_len_le st s
    have hle2 := foldl_pstep_len_le l (pstep st s)
    have hlen : (pstep st s).ids.length = st.ids.length := by omega
    have hps := pstep_eq_of_len hlen
    rw [hps] at h ⊢
    exact foldl_pstep_eq_of_len l st h

/-- The invariant carried through the loop for termination: the dirty
index list has no duplicates and only mentions statement indices. -/
def LoopInv (stmts : List Stmt) (st : PState) : Prop :=
  st.ids.Nodup ∧ ∀ i ∈ st.ids, i ∈ stmts.map (fun s => s.idx)

theorem pstep_loopInv {stmts : List Stmt} {st : PState} {s : Stmt}
    (hs : s ∈ stmts) (h : LoopInv stmts st) : LoopInv stmts (pstep st s) := by
  rcases pstep_cases st s with h1 | ⟨h2, _, h4⟩
  · rw [h1]; exact h
  · rw [h4]
    constructor
    · simp [List.nodup_append, h.1, h2]
    · intro i hi
      rcases List.mem_append.mp hi with hi1 | hi2
      · exact h.2 i hi1
      · simp at hi2
        subst hi2
        exact List.mem_map_of_mem _ hs

/-- With enough fuel the loop reaches a fixed point of a full pass; the
fuel budget `stmts.length + 1` of `propagate` always qualifies because
every productive pass dirties at least one new statement. -/
theorem ploop_fix (stmts : List Stmt) :
    ∀ (fuel : Nat) (st : PState), LoopInv stmts st →
      stmts.length + 1 ≤ fuel + st.ids.length →
      ppass stmts (ploop stmts fuel st) = ploop stmts fuel st := by
  intro fuel
  induction fuel with
  | zero =>
    intro st hinv hlen
    exfalso
    have h1 : st.ids.length ≤ (stmts.map (fun s => s.idx)).length :=
      (List.subperm_of_subset hinv.1 hinv.2).length_le
    rw [List.length_map] at h1
    omega
  | succ f ih =>
    intro st hinv hlen
    simp only [ploop]
    split
    · assumption
    · rename_i hne
      have hinv2 : LoopInv stmts (ppass stmts st) :=
        foldl_pstep_pres stmts (fun _ _ hs h => pstep_loopInv hs h)
          stmts (fun _ h => h) st hinv
      have hge : st.ids.length ≤ (ppass stmts st).ids.length :=
        foldl_pstep_len_le stmts st
      have hgt : st.ids.length + 1 ≤ (ppass stmts st).ids.length := by
        rcases Nat.lt_or_ge st.ids.length (ppass stmts st).ids.length with h | h
        · omega
        · have h2 : (List.foldl pstep st stmts).ids.length = st.ids.length :=
            Nat.le_antisymm h hge
          exact absurd
            ((foldl_pstep_eq_of_len stmts st h2 : ppass stmts st = st)) hne
      exact ih (ppass stmts st) hinv2 (by omega)

theorem propagate_fix (stmts : List Stmt) (st : PState)
    (hinv : LoopInv stmts st) :
    ppass stmts (propagate stmts st) = propagate stmts st :=
  ploop_fix stmts (stmts.length + 1) st hinv (by omega)

/-- Closure of the propagation result: an undirtied statement has no
dependency on the final dirty-symbol set. -/
theorem propagate_closed (stmts : List Stmt) (st : PState)
    (hinv : LoopInv stmts st) :
    ∀ s ∈ stmts, s.idx ∉ (propagate stmts st).ids →
      interHit s.depends (propagate stmts st).syms = false := by
  intro s hs hmem
  exact pstep_fix_not_hit
    (foldl_pstep_fix_elem stmts (propagate stmts st)
      (propagate_fix stmts st hinv) s hs) hmem

/-- The provides of every dirty statement are published to the dirty
symbols, provided distinct statements carry distinct indices. -/
theorem pstep_symInv {stmts : List Stmt}
    (hinj : ∀ s1 ∈ stmts, ∀ s2 ∈ stmts, s1.idx = s2.idx → s1 = s2)
    {st : PState} {s : Stmt} (hs : s ∈ stmts)
    (h : ∀ t ∈ stmts, t.idx ∈ st.ids → ∀ x ∈ t.provides, x ∈ st.syms) :
    ∀ t ∈ stmts, t.idx ∈ (pstep st s).ids →
      ∀ x ∈ t.provides, x ∈ (pstep st s).syms := by
  rcases pstep_cases st s with h1 | ⟨_, _, h4⟩
  · rw [h1]; exact h
  · rw [h4]
    intro t ht hti x hx
    rcases List.mem_append.mp hti with h5 | h5
    · exact List.mem_append_left _ (h t ht h5 x hx)
    · simp at h5
      have heq : t = s := hinj t ht s hs h5
      subst heq
      exact List.mem_append_right _ hx

/-! ## Structural facts about `scan` and the pipeline stages -/

theorem mkStmt_idx (lines : List String) (i : Nat) (r : RawStmt) :
    (mkStmt lines i r).idx = i := rfl

theorem scan_map_idx (lines : List String) (raw : List RawStmt) :
    (scan lines raw).map (fun s => s.idx) = List.range raw.length := by
  unfold scan
  rw [List.map_map]
  have h : ((fun s : Stmt => s.idx) ∘ fun p : Nat × RawStmt => mkStmt lines p.1 p.2)
      = Prod.fst := by
    funext p; rfl
  rw [h, List.enum_map_fst]

theorem scan_idx_nodup (lines : List String) (raw : List RawStmt) :
    ((scan lines raw).map (fun s => s.idx)).Nodup := by
  rw [scan_map_idx]
  exact List.nodup_range raw.length

/-- Distinct statements of one snapshot carry distinct indices. -/
theorem scan_inj (lines : List String) (raw : List RawStmt) :
    ∀ s1 ∈ scan lines raw, ∀ s2 ∈ scan lines raw, s1.idx = s2.idx → s1 = s2 :=
  nodup_map_inj (scan_idx_nodup lines raw)

theorem directOf_nodup (old_src new_src : String) (raw : List RawStmt) :
    (directOf old_src new_src raw).Nodup := by
  unfold directOf
  refine List.Nodup.sublist (List.Sublist.map _ (List.filter_sublist _)) ?_
  exact scan_idx_nodup (newLinesOf new_src) raw

theorem directOf_subset (old_src new_src : String) (raw : List RawStmt) :
    ∀ i ∈ directOf old_src new_src raw,
      i ∈ (stmtsOf new_src raw).map (fun s => s.idx) := by
  intro i hi
  unfold directOf at hi
  rcases List.mem_map.mp hi with ⟨s, hs, rfl⟩
  exact List.mem_map_of_mem _ (List.mem_of_mem_filter hs)

theorem initState_loopInv (old_src new_src : String) (raw : List RawStmt) :
    LoopInv (stmtsOf new_src raw)
      (initState (stmtsOf new_src raw) (directOf old_src new_src raw)) :=
  ⟨directOf_nodup old_src new_src raw, directOf_subset old_src new_src raw⟩

theorem initState_symInv (stmts : List Stmt) (direct : List Nat) :
    ∀ t ∈ stmts, t.idx ∈ (initState stmts direct).ids →
      ∀ x ∈ t.provides, x ∈ (initState stmts direct).syms := by
  intro t ht hti x hx
  refine mem_listConcatMap (a := t) ?_ hx
  refine List.mem_filter.mpr ⟨ht, ?_⟩
  simpa using hti

/-- Every dirty statement of the propagation stage has published its
provides into the dirty-symbol set. -/
theorem dirtyBefore_symInv (old_src new_src : String) (raw : List RawStmt) :
    ∀ t ∈ stmtsOf new_src raw,
      t.idx ∈ (dirtyBefore old_src new_src raw).ids →
      ∀ x ∈ t.provides, x ∈ (dirtyBefore old_src new_src raw).syms := by
  unfold dirtyBefore propagate
  exact @ploop_pres
    (fun st => ∀ t ∈ stmtsOf new_src raw, t.idx ∈ st.ids →
      ∀ x ∈ t.provides, x ∈ st.syms)
    (stmtsOf new_src raw)
    (fun st s hs h => pstep_symInv (scan_inj (newLinesOf new_src) raw) hs h)
    ((stmtsOf new_src raw).length + 1)
    (initState (stmtsOf new_src raw) (directOf old_src new_src raw))
    (initState_symInv (stmtsOf new_src raw) (directOf old_src new_src raw))

/-- A statement left out by the propagation stage has no dependency on the
stage's dirty symbols. -/
theorem dirtyBefore_closed (old_src new_src : String) (raw : List RawStmt) :
    ∀ s ∈ stmtsOf new_src raw,
      s.idx ∉ (dirtyBefore old_src new_src raw).ids →
      interHit s.depends (dirtyBefore old_src new_src raw).syms = false := by
  unfold dirtyBefore
  exact propagate_closed (stmtsOf new_src raw)
    (initState (stmtsOf new_src raw) (directOf old_src new_src raw))
    (initState_loopInv old_src new_src raw)

theorem direct_subset_dirtyBefore (old_src new_src : String)
    (raw : List RawStmt) :
    ∀ i ∈ directOf old_src new_src raw,
      i ∈ (dirtyBefore old_src new_src raw).ids := by
  unfold dirtyBefore propagate
  intro i hi
  exact ploop_ids_subset (stmtsOf new_src raw)
    ((stmtsOf new_src raw).length + 1)
    (initState (stmtsOf new_src raw) (directOf old_src new_src raw)) hi

/-- Indices the contiguity walk adds come from non-definition statements
of the walked suffix. -/
theorem walkAdj_mem :
    ∀ (l : List Stmt) (prev : Stmt) (k : Nat), k ∈ walkAdj prev l →
      ∃ s, s ∈ l ∧ s.idx = k ∧ s.is_def = false
  | s :: rest, prev, k, h => by
    unfold walkAdj at h
    by_cases hadj : s.start = prev.endL + 1
    · rw [if_pos hadj] at h
      by_cases hdef : s.is_def
      · rw [if_pos hdef] at h
        exact absurd h (List.not_mem_nil k)
      · rw [if_neg hdef] at h
        rcases List.mem_cons.mp h with h1 | h1
        · exact ⟨s, List.mem_cons_self s rest, h1.symm,
            Bool.eq_false_iff.mpr hdef⟩
        · rcases walkAdj_mem rest s k h1 with ⟨t, ht, hk, hd⟩
          exact ⟨t, List.mem_cons_of_mem s ht, hk, hd⟩
    · rw [if_neg hadj] at h
      exact absurd h (List.not_mem_nil k)

/-- Indices the contiguity sweep adds come from non-definition statements. -/
theorem sweepAll_mem :
    ∀ (l : List Stmt) (direct : List Nat) (k : Nat), k ∈ sweepAll direct l →
      ∃ s, s ∈ l ∧ s.idx = k ∧ s.is_def = false
  | s :: rest, direct, k, h => by
    unfold sweepAll at h
    rcases List.mem_append.mp h with h1 | h1
    · by_cases hc : (decide (s.idx ∈ direct) && !s.is_def) = true
      · rw [if_pos hc] at h1
        rcases walkAdj_mem rest s k h1 with ⟨t, ht, hk, hd⟩
        exact ⟨t, List.mem_cons_of_mem s ht, hk, hd⟩
      · rw [if_neg hc] at h1
        exact absurd h1 (List.not_mem_nil k)
    · rcases sweepAll_mem rest direct k h1 with ⟨t, ht, hk, hd⟩
      exact ⟨t, List.mem_cons_of_mem s ht, hk, hd⟩

/-! ## Claim C1 -/

/-- C1 (amended): the final dirty set of `affected_snippet` contains every
direct line-diff hit, and the dirty set of the propagation stage (direct
hits plus dependency propagation — the dirty set before the contiguity
sweep, all of which reaches the final set) is closed under symbol
dependency: a statement whose `depends` meets the `provides` of a
propagation-stage-dirty statement is itself propagation-stage dirty.
Symbols provided by statements that only the contiguity sweep adds are not
propagated further, so the *final* set need not be closed (see the
counterexample). -/
theorem affected_snippet_conservative (old_src new_src : String)
    (raw : List RawStmt) :
    (∀ i ∈ directOf old_src new_src raw, i ∈ finalDirty old_src new_src raw)
    ∧ (∀ i ∈ (dirtyBefore old_src new_src raw).ids,
        i ∈ finalDirty old_src new_src raw)
    ∧ (∀ s ∈ stmtsOf new_src raw, ∀ t ∈ stmtsOf new_src raw,
        t.idx ∈ (dirtyBefore old_src new_src raw).ids →
        ∀ x ∈ s.depends, x ∈ t.provides →
        s.idx ∈ (dirtyBefore old_src new_src raw).ids) := by
  unfold finalDirty
  refine ⟨?_, ?_, ?_⟩
  · intro i hi
    exact List.mem_append_left _
      (direct_subset_dirtyBefore old_src new_src raw i hi)
  · intro i hi
    exact List.mem_append_left _ hi
  · intro s hs t ht htid x hxd hxp
    by_contra hns
    have hsym : x ∈ (dirtyBefore old_src new_src raw).syms :=
      dirtyBefore_symInv old_src new_src raw t ht htid x hxp
    have hhit : interHit s.depends (dirtyBefore old_src new_src raw).syms
        = true := interHit_iff.mpr ⟨x, hxd, hsym⟩
    rw [dirtyBefore_closed old_src new_src raw s hs hns] at hhit
    exact Bool.false_ne_true hhit

/-- Witness for `affected_snippet_conservative` at spec scenario 1:
`y = x + 1` (index 1) depends on `x`, provided by the directly changed
`x = 2` (index 0), so index 1 is propagated into the pre-sweep dirty set. -/
theorem affected_snippet_conservative_witness :
    1 ∈ (dirtyBefore oldS1 newS1 rawS1).ids :=
  (affected_snippet_conservative oldS1 newS1 rawS1).2.2
    ((stmtsOf newS1 rawS1).getD 1 default) (by decide)
    ((stmtsOf newS1 rawS1).getD 0 default) (by decide)
    (by decide) "x" (by decide) (by decide)

/-- C1 counterexample, refuting the claim as stated: on `oldK1 → newK1`
the contiguity sweep drags `b = 2` (index 1) into the final dirty set, its
`provides` contains `b`, the snapshot statement `c = b` (index 2) has `b`
in its `depends`, and yet index 2 is excluded from the final dirty set —
the dirty set `affected_snippet` emits is not closed under symbol
dependency. -/
theorem affected_snippet_closure_counterexample :
    ((stmtsOf newK1 rawK1).getD 1 default) ∈ stmtsOf newK1 rawK1
    ∧ ((stmtsOf newK1 rawK1).getD 1 default).idx ∈ finalDirty oldK1 newK1 rawK1
    ∧ "b" ∈ ((stmtsOf newK1 rawK1).getD 1 default).provides
    ∧ ((stmtsOf newK1 rawK1).getD 2 default) ∈ stmtsOf newK1 rawK1
    ∧ "b" ∈ ((stmtsOf newK1 rawK1).getD 2 default).depends
    ∧ ((stmtsOf newK1 rawK1).getD 2 default).idx
        ∉ finalDirty oldK1 newK1 rawK1
    ∧ affected_snippet oldK1 newK1 rawK1 = "a = 1\nb = 2\n" := by
  decide

/-! ## Claim C2 -/

/-- C2 (confirmed): a Definition statement is in the final dirty set iff it
is already in the pre-sweep dirty set, i.e. only via a direct diff hit or
dependency propagation — the contiguity sweep never adds a Definition. -/
theorem affected_snippet_def_not_swept (old_src new_src : String)
    (raw : List RawStmt) :
    ∀ s ∈ stmtsOf new_src raw, s.is_def = true →
      (s.idx ∈ finalDirty old_src new_src raw ↔
        s.idx ∈ (dirtyBefore old_src new_src raw).ids) := by
  intro s hs hdef
  unfold finalDirty
  constructor
  · intro h
    rcases List.mem_append.mp h with h1 | h1
    · exact h1
    · exfalso
      rcases sweepAll_mem (stmtsOf new_src raw)
          (directOf old_src new_src raw) s.idx h1 with ⟨t, ht, hk, hd⟩
      have heq : t = s := scan_inj (newLinesOf new_src) raw t ht s hs hk
      rw [heq, hdef] at hd
      exact Bool.noConfusion hd
  · intro h
    exact List.mem_append_left _ h

/-- Witness for `affected_snippet_def_not_swept`: in `newW2` the statement
at index 1 is a function definition directly below the edited assignment;
the theorem applies to it. -/
theorem affected_snippet_def_not_swept_witness :
    (1 ∈ finalDirty oldW2 newW2 rawW2 ↔
      1 ∈ (dirtyBefore oldW2 newW2 rawW2).ids) :=
  affected_snippet_def_not_swept oldW2 newW2 rawW2
    ((stmtsOf newW2 rawW2).getD 1 default) (by decide) (by decide)

/-! ## Claim C3 -/

theorem interHit_nil (xs : List String) : interHit xs [] = false := by
  simp [interHit]

theorem pstep_empty (s : Stmt) :
    pstep (PState.mk [] []) s = PState.mk [] [] := by
  unfold pstep
  rw [if_neg (List.not_mem_nil s.idx)]
  rw [if_neg (by simp [interHit_nil] : ¬interHit s.depends [] = true)]

theorem foldl_pstep_const {st : PState} (h : ∀ s, pstep st s = st) :
    ∀ l : List Stmt, l.foldl pstep st = st
  | [] => rfl
  | s :: l => by
    rw [List.foldl_cons, h s]
    exact foldl_pstep_const h l

theorem propagate_empty (stmts : List Stmt) :
    propagate stmts (PState.mk [] []) = PState.mk [] [] := by
  have h1 : ppass stmts (PState.mk [] []) = PState.mk [] [] :=
    foldl_pstep_const pstep_empty stmts
  unfold propagate
  simp only [ploop, h1, if_pos]

theorem sweepAll_nil : ∀ l : List Stmt, sweepAll [] l = []
  | [] => rfl
  | s :: rest => by
    unfold sweepAll
    simp [sweepAll_nil rest]

/-- If every unmatched new line is blank or comment-only, nothing is
recorded as changed (parse.py lines 138-140). -/
theorem changedLines_nil (a b : List String)
    (h : ∀ j ∈ List.range b.length, j ∉ matchedNew a b →
        isCommentOrBlank (b.getD j "") = true) :
    changedLines a b = [] := by
  unfold changedLines
  rw [List.filter_eq_nil_iff]
  intro j hj
  by_cases hm : j ∈ matchedNew a b
  · simp [hm]
  · simp [hm]
    simpa using h j hj hm

/-- C3 (amended): whenever every line the computed line diff leaves
unmatched in the new text is blank or comment-only — in particular when
blank/comment lines are merely inserted and the matcher keeps all code
lines aligned — `affected_snippet` returns the empty string.  (The claim
as stated, quantifying over all pairs whose non-blank/comment content
coincides, fails: the matcher may align a comment line instead of a code
line; see the counterexample.) -/
theorem affected_snippet_comment_blank_empty (old_src new_src : String)
    (raw : List RawStmt)
    (h : ∀ j ∈ List.range (newLinesOf new_src).length,
        j ∉ matchedNew (newLinesOf old_src) (newLinesOf new_src) →
        isCommentOrBlank ((newLinesOf new_src).getD j "") = true) :
    affected_snippet old_src new_src raw = "" := by
  have hdir : directOf old_src new_src raw = [] := by
    unfold directOf changedOf
    rw [changedLines_nil _ _ h]
    have hf : (stmtsOf new_src raw).filter (directHit []) = [] :=
      List.filter_eq_nil_iff.mpr (fun s _ => by simp [directHit])
    rw [hf]
    rfl
  have hini : initState (stmtsOf new_src raw) ([] : List Nat)
      = PState.mk [] [] := by
    unfold initState
    have hf : (stmtsOf new_src raw).filter
        (fun s => decide (s.idx ∈ ([] : List Nat))) = [] :=
      List.filter_eq_nil_iff.mpr (fun s _ => by simp)
    rw [hf]
    rfl
  have hdb : dirtyBefore old_src new_src raw = PState.mk [] [] := by
    unfold dirtyBefore
    rw [hdir, hini, propagate_empty]
  have hfin : finalDirty old_src new_src raw = [] := by
    unfold finalDirty
    rw [hdb, hdir, sweepAll_nil]
    rfl
  unfold affected_snippet
  rw [hfin]
  have hf : (stmtsOf new_src raw).filter
      (fun s => decide (s.idx ∈ ([] : List Nat))) = [] :=
    List.filter_eq_nil_iff.mpr (fun s _ => by simp)
  rw [hf]
  rfl

/-- Witness for `affected_snippet_comment_blank_empty`: inserting the
comment line `# hi` above `x = 1` yields an empty snippet. -/
theorem affected_snippet_comment_blank_empty_witness :
    affected_snippet oldW3 newW3 rawW3 = "" :=
  affected_snippet_comment_blank_empty oldW3 newW3 rawW3 (by decide)

/-- C3 counterexample, refuting the claim as stated: `oldK3` and `newK3`
differ only in blank/comment lines (deleting all such lines leaves the
same sequence, namely `a = 1`), yet the snippet is `a = 1\n`, not empty:
the diff aligns the two `#c` lines and marks the moved code line inserted. -/
theorem affected_snippet_comment_swap_counterexample :
    (newLinesOf oldK3).filter (fun l => !isCommentOrBlank l)
      = (newLinesOf newK3).filter (fun l => !isCommentOrBlank l)
    ∧ affected_snippet oldK3 newK3 rawK3 = "a = 1\n"
    ∧ affected_snippet oldK3 newK3 rawK3 ≠ "" := by
  decide

/-! ## Claim C6 -/

/-- C6 (confirmed): spec scenario 2.  The pure deletion of `b = 2` is not
recorded against the new text — only line 1 (`c = a + 1`) is changed —
the unchanged `a = 1` statement (index 0) stays out of the dirty set, and
the snippet is exactly `c = a + 1\n`. -/
theorem affected_snippet_scenario_two :
    changedOf oldS2 newS2 = [1]
    ∧ 0 ∉ finalDirty oldS2 newS2 rawS2
    ∧ affected_snippet oldS2 newS2 rawS2 = "c = a + 1\n" := by
  decide

/-! ## Claim C7 -/

/-- C7 (amended): for `Assign` nodes the extractor's provides are the
names collected by recursing through tuple/list nesting only, and on
targets built solely from plain names and tuple/list nesting this equals
the full set of names the assignment binds.  (A name under a starred
target is bound but omitted; see the counterexample.) -/
theorem assign_provides_plain_unpack :
    (∀ (targets : List Target) (value : Expr),
        providesOf (Node.assign targets value)
          = listConcatMap collectTargetNames targets)
    ∧ ∀ t : Target, plainUnpackOnly t = true →
        collectTargetNames t = specBoundNames t := by
  constructor
  · intro targets value
    rfl
  · intro t
    induction t with
    | name s => intro _; rfl
    | seqNil => intro _; rfl
    | seqCons hd tl ihhd ihtl =>
      intro hp
      have hp2 : plainUnpackOnly hd = true ∧ plainUnpackOnly tl = true := by
        simpa [plainUnpackOnly, Bool.and_eq_true] using hp
      show collectTargetNames hd ++ collectTargetNames tl
          = specBoundNames hd ++ specBoundNames tl
      rw [ihhd hp2.1, ihtl hp2.2]
    | starred inner ih =>
      intro hp
      exact absurd hp (by simp [plainUnpackOnly])
    | other loads =>
      intro hp
      exact absurd hp (by simp [plainUnpackOnly])

/-- Witness for `assign_provides_plain_unpack`: on the plain tuple target
`(x, y)` the collected names are exactly the bound names. -/
theorem assign_provides_plain_unpack_witness :
    collectTargetNames (Target.seqCons (.name "x") (.seqCons (.name "y") .seqNil))
      = specBoundNames (Target.seqCons (.name "x") (.seqCons (.name "y") .seqNil)) :=
  assign_provides_plain_unpack.2 _ (by decide)

/-- C7 counterexample, refuting the claim as stated: for the destructuring
assignment `a, *b = ...` the name `b` is bound by the assignment (it is a
leaf target name under the starred node), yet the extractor's provides set
is just `a` — `_collect_target_names` recurses only through `Tuple`/`List`
nodes and drops `Starred`. -/
theorem assign_provides_starred_counterexample :
    "b" ∈ specBoundNames starredPair
    ∧ "b" ∉ providesOf (Node.assign [starredPair] .atom)
    ∧ providesOf (Node.assign [starredPair] .atom) = ["a"] := by
  decide

/-! ## Claim C10 -/

/-- C10 (confirmed): every scanned statement whose node is a Definition
(function, async function, class) or an Import gets an empty depends set —
decorator, default, annotation, base-class expressions and imported module
names never register as dependencies — and therefore such a statement can
never satisfy the propagation test against any dirty-symbol set. -/
theorem def_import_no_depends (lines : List String) (raw : List RawStmt)
    (i : Nat) (r : RawStmt) (hm : (i, r) ∈ raw.enum)
    (h : (isDefNode r.node || isImportNode r.node) = true) :
    mkStmt lines i r ∈ scan lines raw
    ∧ (mkStmt lines i r).depends = []
    ∧ ∀ st : PState, interHit (mkStmt lines i r).depends st.syms = false := by
  have hdep : (mkStmt lines i r).depends = [] := by
    show dependsOf r.node = []
    unfold dependsOf
    rw [if_pos h]
  refine ⟨?_, hdep, ?_⟩
  · unfold scan
    exact List.mem_map.mpr ⟨(i, r), hm, rfl⟩
  · intro st
    rw [hdep]
    simp [interHit]

/-- Witness for `def_import_no_depends` on `import numpy as np`. -/
theorem def_import_no_depends_witness :
    (mkStmt ["import numpy as np\n"] 0
        (RawStmt.mk 1 1 (.importN [ImportAlias.mk "numpy" (some "np")]))).depends
      = [] :=
  (def_import_no_depends ["import numpy as np\n"]
      [RawStmt.mk 1 1 (.importN [ImportAlias.mk "numpy" (some "np")])] 0
      (RawStmt.mk 1 1 (.importN [ImportAlias.mk "numpy" (some "np")]))
      (by decide) (by decide)).2.1

/-! ## Claim C5 -/

/-- C5 (amended): spec scenario 3 — creating a context from
`import m\ndef f(): pass\nz=1` (one statement per line) under policy
`{execute_imports: False, define_functions: True, run_code: True}`
concatenates the chunk `def f(): pass\nz=1` and yields a namespace binding
`f` and `z` but not `m`.  In general the filtered path keeps exactly the
statements whose class the policy enables, in original order, and what it
concatenates and executes as one unit are their verbatim *line slices*
`lines[start : end + 1]` — the same text the extractor records for a
statement — so a slice can carry along a disabled statement that shares a
line with a kept one (see the counterexample). -/
theorem execute_fresh_policy :
    selectedChunk linesS3 rawS3 cfgS3 = "def f(): pass\nz=1"
    ∧ (lookupVar (execute_fresh linesS3 rawS3 chunkRawS3 cfgS3) "f").isSome
        = true
    ∧ (lookupVar (execute_fresh linesS3 rawS3 chunkRawS3 cfgS3) "z").isSome
        = true
    ∧ lookupVar (execute_fresh linesS3 rawS3 chunkRawS3 cfgS3) "m" = none
    ∧ (∀ (raw : List RawStmt) (cfg : Config),
        (keptStmts raw cfg).map (fun r => r.node)
          = (raw.map (fun r => r.node)).filter (enabledFor cfg))
    ∧ ∀ (lines : List String) (i : Nat) (r : RawStmt),
        sliceOf lines r = (mkStmt lines i r).src := by
  refine ⟨by decide, by decide, by decide, by decide, ?_, ?_⟩
  · intro raw cfg
    unfold keptStmts
    rw [List.filter_map]
    rfl
  · intro lines i r
    rfl

/-- C5 counterexample, refuting the claim's general clause as stated: in
`import m; z = 1` both statements share line 1; under `cfgS3`
(`execute_imports: False`) only the assignment is kept, yet its line slice
is the whole line, so the chunk still contains the import's text and
executing it binds `m` — a statement of a disabled class is concatenated
and executed. -/
theorem execute_fresh_shared_line_counterexample :
    keptStmts rawK5 cfgS3 = [RawStmt.mk 1 1 (.assign [.name "z"] .atom)]
    ∧ enabledFor cfgS3 (Node.importN [ImportAlias.mk "m" none]) = false
    ∧ selectedChunk linesK5 rawK5 cfgS3 = "import m; z = 1"
    ∧ (lookupVar (execute_fresh linesK5 rawK5 chunkRawK5 cfgS3) "m").isSome
        = true := by
  decide

/-! ## Heap lemmas for the context store -/

theorem alookupD_set_ne (i j : Nat) (m : Mapping) (hne : j ≠ i) :
    ∀ l : List (Nat × Mapping),
      alookupD j (l.map (fun p => if p.1 = i then (i, m) else p))
        = alookupD j l
  | [] => rfl
  | (k, v) :: l => by
    rw [List.map_cons]
    by_cases hk : k = i
    · rw [show (if (k, v).1 = i then (i, m) else (k, v)) = (i, m) from
        if_pos hk]
      unfold alookupD
      have hij : i ≠ j := fun hh => hne hh.symm
      have hkj : k ≠ j := by rw [hk]; exact hij
      rw [if_neg hij, if_neg hkj]
      exact alookupD_set_ne i j m hne l
    · rw [show (if (k, v).1 = i then (i, m) else (k, v)) = (k, v) from
        if_neg hk]
      unfold alookupD
      by_cases hkj : k = j
      · rw [if_pos hkj, if_pos hkj]
      · rw [if_neg hkj, if_neg hkj]
        exact alookupD_set_ne i j m hne l

/-- Mutating one dict leaves every other dict unchanged. -/
theorem heapDict_heapSet_ne (h : Heap) (i j : Nat) (m : Mapping)
    (hne : j ≠ i) : heapDict (heapSet h i m) j = heapDict h j := by
  unfold heapDict heapSet
  rw [alookupD_set_ne i j m hne]

theorem heapAlloc_dict (h : Heap) (m : Mapping) :
    heapDict (heapAlloc h m).1 (heapAlloc h m).2 = m := by
  simp [heapAlloc, heapDict, alookupD]

theorem heapAlloc_dict_ne (h : Heap) (m : Mapping) (j : Nat)
    (hne : h.next ≠ j) : heapDict (heapAlloc h m).1 j = heapDict h j := by
  simp [heapAlloc, heapDict, alookupD, hne]

theorem alookupD_isSome_mem {i : Nat} :
    ∀ {l : List (Nat × Mapping)}, (alookupD i l).isSome = true →
      ∃ m, (i, m) ∈ l
  | (k, v) :: l, h => by
    by_cases hk : k = i
    · subst hk
      exact ⟨v, List.mem_cons_self _ _⟩
    · unfold alookupD at h
      rw [if_neg hk] at h
      rcases alookupD_isSome_mem h with ⟨m, hm⟩
      exact ⟨m, List.mem_cons_of_mem _ hm⟩
  | [], h => by simp [alookupD] at h

/-! ## Claim C4 -/

/-- C8 (confirmed): on an existing context, `run(key)` with no patch
returns the same key, changes neither the store entry nor the heap (so the
namespace seen through the accessor is unchanged), raises nothing — and
the `cfg` argument is ignored on an existing key, whatever the patch. -/
theorem run_noop_patch (parseErr : String → Option String)
    (execSem : String → Mapping → Mapping) (h : Heap) (ctx : CtxData)
    (key : String) (cfgA cfgB : Option Config) (patch : Option String) :
    runExisting parseErr execSem h ctx key none cfgA = (h, ctx, key, none)
    ∧ heapDict (runExisting parseErr execSem h ctx key none cfgA).1 ctx.gid
        = heapDict h ctx.gid
    ∧ runExisting parseErr execSem h ctx key patch cfgA
        = runExisting parseErr execSem h ctx key patch cfgB :=
  ⟨rfl, rfl, rfl⟩

/-! ## Claim C9 -/

/-- C9 (confirmed): the accessor returns a freshly allocated shallow copy,
never the live dict: the returned identity differs from the context's, its
contents equal the live contents, and replacing the copy's contents by any
mapping whatsoever (adding, removing or rebinding entries) leaves the live
dict — and the result of every subsequent accessor call — unchanged. -/
theorem globals_of_returns_copy (h : Heap) (ctx : CtxData)
    (hwf : HeapWF h) (hmem : (alookupD ctx.gid h.dicts).isSome = true) :
    (globals_of h ctx).2 ≠ ctx.gid
    ∧ heapDict (globals_of h ctx).1 (globals_of h ctx).2 = heapDict h ctx.gid
    ∧ heapDict (globals_of h ctx).1 ctx.gid = heapDict h ctx.gid
    ∧ ∀ m2 : Mapping,
        heapDict (heapSet (globals_of h ctx).1 (globals_of h ctx).2 m2)
            ctx.gid = heapDict h ctx.gid
        ∧ heapDict
            (globals_of
              (heapSet (globals_of h ctx).1 (globals_of h ctx).2 m2) ctx).1
            (globals_of
              (heapSet (globals_of h ctx).1 (globals_of h ctx).2 m2) ctx).2
          = heapDict h ctx.gid := by
  have hlt : ctx.gid < h.next := by
    rcases alookupD_isSome_mem hmem with ⟨m, hm⟩
    exact hwf (ctx.gid, m) hm
  have hne : h.next ≠ ctx.gid := Nat.ne_of_gt hlt
  have h2 : (globals_of h ctx).2 = h.next := rfl
  refine ⟨by rw [h2]; exact hne, ?_, ?_, ?_⟩
  · exact heapAlloc_dict h (heapDict h ctx.gid)
  · exact heapAlloc_dict_ne h (heapDict h ctx.gid) ctx.gid hne
  · intro m2
    have e1 : heapDict
        (heapSet (globals_of h ctx).1 (globals_of h ctx).2 m2) ctx.gid
        = heapDict (globals_of h ctx).1 ctx.gid :=
      heapDict_heapSet_ne (globals_of h ctx).1 (globals_of h ctx).2 ctx.gid
        m2 (Nat.ne_of_lt hlt)
    have e2 : heapDict
        (heapSet (globals_of h ctx).1 (globals_of h ctx).2 m2) ctx.gid
        = heapDict h ctx.gid :=
      e1.trans (heapAlloc_dict_ne h (heapDict h ctx.gid) ctx.gid hne)
    refine ⟨e2, ?_⟩
    have e3 : heapDict
        (globals_of
          (heapSet (globals_of h ctx).1 (globals_of h ctx).2 m2) ctx).1
        (globals_of
          (heapSet (globals_of h ctx).1 (globals_of h ctx).2 m2) ctx).2
        = heapDict
            (heapSet (globals_of h ctx).1 (globals_of h ctx).2 m2) ctx.gid :=
      heapAlloc_dict
        (heapSet (globals_of h ctx).1 (globals_of h ctx).2 m2)
        (heapDict
          (heapSet (globals_of h ctx).1 (globals_of h ctx).2 m2) ctx.gid)
    exact e3.trans e2

/-- Witness for `globals_of_returns_copy` on a one-context heap. -/
theorem globals_of_returns_copy_witness :
    (globals_of (Heap.mk [(0, [("x", Value.intV 1)])] 1)
        (CtxData.mk 0 "x = 1" (Config.mk true true true false))).2 ≠ 0 :=
  (globals_of_returns_copy (Heap.mk [(0, [("x", Value.intV 1)])] 1)
      (CtxData.mk 0 "x = 1" (Config.mk true true true false))
      (by intro p hp; fin_cases hp <;> decide) (by decide)).1

end PydevRepl
